import Mathlib

/-!
Verification model of the ondevice-ai runtime plane.

Shallow embedding of the core subsystems, translated from the Python
sources:
* `core/auth.py` — token metadata, mint / validate / revoke / record_usage;
* `core/sandbox.py` — the parent side of `SandboxHarness.execute`;
* `core/supervisor.py` — the restart loop of `Supervisor.run`;
* `core/runtime_pool.py` — the worker pool bookkeeping (spawn, scale,
  shrink, crash restart) with wall-clock time replaced by a monotone
  logical clock;
* `core/runtime_gateway.py` — the endpoint registry.

Python floats measuring wall-clock seconds are modelled as rationals,
Python ints as `Int` (or `Nat` where the source only ever holds
non-negative counters), dicts as insertion-ordered association lists.
Process side effects (actually spawning children, killing processes,
writing files, psutil metrics) are outside the model: what remains is the
bookkeeping state these functions maintain, with child behaviour passed
in as an explicit input where a function branches on it.
-/

/-- Lexicographic comparison of character lists by code point, the order
Python uses when comparing strings.  Defined structurally so that it
evaluates by `decide`. -/
def charsLe : List Char → List Char → Bool
  | [], _ => true
  | _ :: _, [] => false
  | c :: cs, d :: ds => if c < d then true else if d < c then false else charsLe cs ds

/-- String comparison by code points, modelling Python `s1 <= s2`. -/
def strLeB (a b : String) : Bool := charsLe a.data b.data

/-- Insert a string into a sorted list, keeping it sorted. -/
def insertStr (x : String) : List String → List String
  | [] => [x]
  | y :: ys => if strLeB x y then x :: y :: ys else y :: insertStr x ys

/-- Insertion sort on strings, modelling Python `sorted` on a list of
strings (stable, ascending by code point). -/
def sortStrings : List String → List String
  | [] => []
  | x :: xs => insertStr x (sortStrings xs)

/-- Model of Python `str.lower()` for the ASCII protocol and scope names
used by this code base. -/
def pyLower (s : String) : String := ⟨s.data.map Char.toLower⟩

/-! ## core/auth.py -/

/-- Metadata describing an issued token (`TokenMetadata` in
`core/auth.py`).  `windowStart` / `windowCount` are the private
`_window_start` / `_window_count` fields. -/
structure TokenMetadata where
  token : String
  subject : String
  scopes : List String
  issuedAt : ℚ
  expiresAt : Option ℚ
  admin : Bool := false
  rateLimitPerMinute : ℤ := 120
  lastUsedAt : Option ℚ := none
  windowStart : ℚ := 0
  windowCount : ℤ := 0
deriving DecidableEq

/-- `TokenMetadata.is_expired` with the wall clock passed explicitly
(`validate` calls it with the current time). -/
def isExpired (meta : TokenMetadata) (now : ℚ) : Bool :=
  match meta.expiresAt with
  | none => false
  | some e => now ≥ e

/-- Dict lookup on an insertion-ordered association list (used for the
`AuthManager._records` dict keyed by token value). -/
def getRecord : List (String × TokenMetadata) → String → Option TokenMetadata
  | [], _ => none
  | (k, v) :: rest, tok => if k == tok then some v else getRecord rest tok

/-- Dict assignment: replace the value at an existing key or append a new
entry, preserving insertion order. -/
def setRecord : List (String × TokenMetadata) → String → TokenMetadata → List (String × TokenMetadata)
  | [], tok, meta => [(tok, meta)]
  | (k, v) :: rest, tok, meta =>
    if k == tok then (tok, meta) :: rest else (k, v) :: setRecord rest tok meta

/-- Dict `pop`: drop the entry at the key, if present. -/
def removeRecord : List (String × TokenMetadata) → String → List (String × TokenMetadata)
  | [], _ => []
  | (k, v) :: rest, tok => if k == tok then rest else (k, v) :: removeRecord rest tok

/-- The mutable state of an `AuthManager`: its `_records` dict plus the
configured defaults.  The token store mirror and the audit log are not
part of the in-memory state; the effects on them are reported by the
operations that touch them. -/
structure AuthManager where
  records : List (String × TokenMetadata)
  defaultTtl : ℚ := 3600
  defaultRateLimit : ℤ := 120
deriving DecidableEq

/-- Canonicalisation of scopes performed by `mint_token`:
`tuple(sorted(set(str(scope).strip() for scope in scopes if scope)))`.
The truthiness filter drops empty strings before stripping. -/
def canonScopes (scopes : List String) : List String :=
  sortStrings (((scopes.filter (fun s => s ≠ "")).map String.trim).dedup)

/-- `AuthManager.mint_token`.  The fresh `secrets.token_urlsafe(32)` value
and the current wall clock are passed in explicitly.  Returns the updated
manager and the minted metadata; the full records map is saved to the
token store before returning. -/
def mintToken (m : AuthManager) (tokenValue : String) (now : ℚ) (subject : String)
    (scopes : List String) (ttlSeconds : Option ℚ) (admin : Bool)
    (rateLimitPerMinute : Option ℤ) : AuthManager × TokenMetadata :=
  let expiresAt : Option ℚ :=
    match ttlSeconds with
    | none => if m.defaultTtl > 0 then some (now + m.defaultTtl) else none
    | some ttl => if ttl ≤ 0 then none else some (now + ttl)
  let meta : TokenMetadata :=
    { token := tokenValue
      subject := subject
      scopes := canonScopes scopes
      issuedAt := now
      expiresAt := expiresAt
      admin := admin
      -- Python `rate_limit_per_minute or self._default_rate_limit`:
      -- `None` and `0` both fall back to the default.
      rateLimitPerMinute :=
        match rateLimitPerMinute with
        | none => m.defaultRateLimit
        | some r => if r = 0 then m.defaultRateLimit else r }
  ({ m with records := setRecord m.records tokenValue meta }, meta)

/-- `AuthManager.revoke_token`: drop the record and report whether it
existed. -/
def revokeToken (m : AuthManager) (token : String) : AuthManager × Bool :=
  let existed := (getRecord m.records token).isSome
  ({ m with records := removeRecord m.records token }, existed)

/-- `AuthManager.validate` with the wall clock explicit.  `scope = none`
models passing no scope; an empty scope string is falsy in Python and
also skips the scope check. -/
def validate (m : AuthManager) (token : String) (now : ℚ) (scope : Option String) :
    Option TokenMetadata :=
  match getRecord m.records token with
  | none => none
  | some meta =>
    if isExpired meta now then none
    else
      match scope with
      | none => some meta
      | some s =>
        if s = "" then some meta
        else if meta.scopes.contains s || meta.scopes.contains "*" then some meta
        else none

/-- Result of one `AuthManager.record_usage` call: the updated manager
state, whether `PermissionError("rate_limit_exceeded")` was raised,
whether the token store was saved, and whether an audit event was
written. -/
structure RecordUsageOutcome where
  state : AuthManager
  rateLimited : Bool
  storeSaved : Bool
  auditLogged : Bool
deriving DecidableEq

/-- `AuthManager.record_usage`.  The metadata object is mutated in place
in the source, so the window bump survives even on the raising path;
`store.save` and the audit `write_event` only run on the non-raising
path. -/
def recordUsage (m : AuthManager) (token : String) (now : ℚ) : RecordUsageOutcome :=
  match getRecord m.records token with
  | none => ⟨m, false, false, false⟩
  | some meta =>
    let meta1 :=
      if now - meta.windowStart ≥ 60 then
        { meta with windowStart := now, windowCount := 0 }
      else meta
    let meta2 := { meta1 with windowCount := meta1.windowCount + 1, lastUsedAt := some now }
    let m1 := { m with records := setRecord m.records token meta2 }
    if meta2.windowCount > meta2.rateLimitPerMinute then ⟨m1, true, false, false⟩
    else ⟨m1, false, true, true⟩

/-- State after n successive `record_usage` calls for the same token at
the same wall-clock instant. -/
def usageStateN (m : AuthManager) (token : String) (now : ℚ) : ℕ → AuthManager
  | 0 => m
  | n + 1 => (recordUsage (usageStateN m token now n) token now).state

/-- Whether the (n+1)-th of those calls raised `rate_limit_exceeded`. -/
def usageRaised (m : AuthManager) (token : String) (now : ℚ) (n : ℕ) : Bool :=
  (recordUsage (usageStateN m token now n) token now).rateLimited

/-! ## core/sandbox.py -/

/-- `SandboxPermissions`: the permission switches.  (The source has five
flags; `allows` resolves a permission name by attribute lookup.) -/
structure SandboxPermissions where
  fileAccess : Bool := false
  networkAccess : Bool := false
  calendarAccess : Bool := false
  mailAccess : Bool := false
  browserAccess : Bool := false
deriving DecidableEq

/-- `SandboxPermissions.allows`: attribute lookup by name; an unknown
permission name raises `KeyError`. -/
def allows (p : SandboxPermissions) : String → Except String Bool
  | "file_access" => .ok p.fileAccess
  | "network_access" => .ok p.networkAccess
  | "calendar_access" => .ok p.calendarAccess
  | "mail_access" => .ok p.mailAccess
  | "browser_access" => .ok p.browserAccess
  | other => .error ("Unknown permission \x27" ++ other ++ "\x27")

/-- `SandboxAction`: target handle, arguments, and required permissions.
`α` is the type of (serialisable) argument and result values. -/
structure SandboxAction (α : Type) where
  target : String
  args : List α := []
  kwargs : List (String × α) := []
  requiredPermissions : List String := []
deriving DecidableEq

/-- `SandboxResult` as constructed by the parent in `execute`. -/
structure SandboxResult (α : Type) where
  success : Bool
  value : Option α
  stdout : String
  stderr : String
  duration : ℚ
  timedOut : Bool
  error : Option String := none
  limits : Option (List (String × ℤ)) := none
  usage : Option (List (String × ℤ)) := none
deriving DecidableEq

/-- The single result message a child emits on the queue (the dict built
by `_worker_entry`; `status` is `"ok"` or `"error"`). -/
structure SandboxPayload (α : Type) where
  status : String
  result : Option α := none
  error : Option String := none
  stdout : String := ""
  stderr : String := ""
  duration : ℚ := 0
  limits : Option (List (String × ℤ)) := none
  usage : Option (List (String × ℤ)) := none
deriving DecidableEq

/-- What the parent observes of the child process when `join(timeout =
wall_time_seconds)` returns: either the child delivered its result
message and exited, exited without a message, or is still running at the
deadline (in which case the parent kills it). -/
inductive ChildOutcome (α : Type) where
  | delivered (payload : SandboxPayload α)
  | exitedNoMessage
  | stillRunningAtDeadline
deriving DecidableEq

/-- Exceptions `SandboxHarness.execute` can raise before spawning. -/
inductive SandboxError where
  | permissionError (message : String)
  | keyError (message : String)
deriving DecidableEq

/-- The `denied` list comprehension in `execute`: scopes whose permission
flag is off, in order; an unknown name raises `KeyError` at the point it
is reached. -/
def deniedOf (p : SandboxPermissions) : List String → Except String (List String)
  | [] => .ok []
  | scope :: rest =>
    match allows p scope with
    | .error e => .error e
    | .ok true => deniedOf p rest
    | .ok false =>
      match deniedOf p rest with
      | .error e => .error e
      | .ok denied => .ok (scope :: denied)

/-- The `PermissionError` message built in `execute`. -/
def permissionDeniedMessage (target : String) (denied : List String) : String :=
  "Action \x27" ++ target ++ "\x27 requires disabled permissions: " ++
    String.intercalate ", " (sortStrings denied)

/-- The parent side of `SandboxHarness.execute` for `α`-valued actions.
The child's behaviour is an explicit input (`child`), and `elapsed` is
the parent-measured `time.time() - start_time`.  Raised exceptions are
the `Except.error` branch. -/
def execute {α : Type} (perms : SandboxPermissions) (action : SandboxAction α)
    (child : ChildOutcome α) (elapsed : ℚ) : Except SandboxError (SandboxResult α) :=
  match deniedOf perms action.requiredPermissions with
  | .error e => .error (.keyError e)
  | .ok denied =>
    if denied ≠ [] then
      .error (.permissionError (permissionDeniedMessage action.target denied))
    else
      match child with
      | .stillRunningAtDeadline =>
        .ok { success := false, value := none, stdout := "", stderr := ""
              duration := elapsed, timedOut := true
              error := some "Timed out waiting for sandbox action" }
      | .exitedNoMessage =>
        .ok { success := false, value := none, stdout := "", stderr := ""
              duration := elapsed, timedOut := false
              error := some "Sandbox process exited without result" }
      | .delivered payload =>
        if payload.status = "ok" then
          .ok { success := true, value := payload.result, stdout := payload.stdout
                stderr := payload.stderr, duration := payload.duration
                timedOut := false, error := none
                limits := payload.limits, usage := payload.usage }
        else
          .ok { success := false, value := none, stdout := payload.stdout
                stderr := payload.stderr, duration := elapsed, timedOut := false
                error := some (payload.error.getD "Unknown sandbox failure")
                limits := payload.limits, usage := payload.usage }

/-! ## core/supervisor.py -/

/-- The restart-policy fields of `SupervisorConfig`.  (Health-endpoint
settings and the graceful-shutdown timeout play no part in the restart
loop modelled here.) -/
structure SupervisorConfig where
  maxRestarts : ℤ := 5
  windowSeconds : ℚ := 60
  backoffSeconds : ℚ := 2
  maxBackoffSeconds : ℚ := 30
deriving DecidableEq

/-- `Supervisor._cleanup_restart_history`: clear the deque when the
window is non-positive, else drop timestamps older than `now - window`
from the front. -/
def cleanupHistory (windowSeconds : ℚ) (now : ℚ) (hist : List ℚ) : List ℚ :=
  let window := max 0 windowSeconds
  if window ≤ 0 then []
  else hist.dropWhile (fun t => decide (t < now - window))

/-- `Supervisor._should_restart`: `max(0, max_restarts)` restarts are
allowed per window; a zero budget never restarts. -/
def shouldRestart (maxRestarts : ℤ) (hist : List ℚ) : Bool :=
  let m := max 0 maxRestarts
  if m = 0 then false else decide ((hist.length : ℤ) < m)

/-- What `Supervisor.run` produced: the returned exit code, the final
`_restart_count`, and how many times the child was launched in total
(so launches − 1 children were started by a restart). -/
structure RunOutcome where
  exitCode : ℤ
  restartCount : ℕ
  launches : ℕ
deriving DecidableEq

/-- The supervision loop of `Supervisor.run` / `_spawn_and_monitor_child`
with `stop()` never requested.  `code n`, `spawnT n` and `exitT n` give
the exit code, launch wall time and exit wall time of the n-th launch
(0-based).  `fuel` bounds the number of iterations; `none` means the
loop was still running when fuel ran out.  Backoff sleeping changes no
bookkeeping state and is omitted. -/
def runAux (cfg : SupervisorConfig) (code : ℕ → ℤ) (spawnT exitT : ℕ → ℚ) :
    ℕ → ℕ → List ℚ → ℕ → Option RunOutcome
  | 0, _, _, _ => none
  | fuel + 1, n, hist, count =>
    -- _spawn_and_monitor_child: prune the history, launch, wait.
    let hist1 := cleanupHistory cfg.windowSeconds (spawnT n) hist
    let ec := code n
    if ec = 0 then some ⟨0, count, n + 1⟩
    else
      -- non-zero exit: _register_restart appends the exit time, bumps
      -- _restart_count and prunes again.
      let hist2 := cleanupHistory cfg.windowSeconds (exitT n) (hist1 ++ [exitT n])
      let count1 := count + 1
      if shouldRestart cfg.maxRestarts hist2 then
        runAux cfg code spawnT exitT fuel (n + 1) hist2 count1
      else some ⟨ec, count1, n + 1⟩

/-- `Supervisor.run` from a fresh supervisor (empty history, zero
restart count). -/
def supervisorRun (cfg : SupervisorConfig) (code : ℕ → ℤ) (spawnT exitT : ℕ → ℚ)
    (fuel : ℕ) : Option RunOutcome :=
  runAux cfg code spawnT exitT fuel 0 [] 0

/-! ## core/runtime_pool.py -/

/-- Bookkeeping for one managed worker (`RuntimeProcess`), with the
child process abstracted to its liveness flag and `started_at` replaced
by the pool's logical clock.  `command` / `cwd` / `env` / `last_health`
carry no information the pool's control flow reads, and are omitted. -/
structure RuntimeProcess where
  name : String
  port : ℤ
  startedAt : ℕ
  restarts : ℕ := 0
  alive : Bool := true
deriving DecidableEq

/-- The capacity-relevant fields of `PoolConfig`.  The timing knobs
(`heartbeat_interval`, `restart_backoff`, `shutdown_timeout`) only
control sleeping and are omitted. -/
structure PoolConfig where
  minRuntimes : ℤ := 0
  maxRuntimes : ℤ := 2
  desiredRuntimes : Option ℤ := none
  basePort : ℤ := 9600
deriving DecidableEq

/-- Mutable state of a `RuntimePool`: the insertion-ordered `_processes`
dict, `_desired_runtimes`, `_port_cursor`, plus the logical clock
standing in for `time.time()`. -/
structure PoolState where
  procs : List RuntimeProcess
  desired : ℤ
  portCursor : ℤ
  clock : ℕ
deriving DecidableEq

/-- `RuntimePool._bound_capacity`: clamp to ≥ 0, then to ≥ min, then to
≤ max when max is positive. -/
def boundCapacity (cfg : PoolConfig) (desired : ℤ) : ℤ :=
  let d0 := max 0 desired
  let d1 := if d0 < cfg.minRuntimes then cfg.minRuntimes else d0
  if cfg.maxRuntimes > 0 then min d1 cfg.maxRuntimes else d1

/-- Pool state right after `RuntimePool.__init__`. -/
def initialPoolState (cfg : PoolConfig) : PoolState :=
  { procs := []
    desired := boundCapacity cfg (cfg.desiredRuntimes.getD cfg.minRuntimes)
    portCursor := cfg.basePort
    clock := 0 }

/-- Worker naming in `_spawn_locked`: `f"runtime-{index}"`. -/
def mkWorkerName (index : ℕ) : String := "runtime-" ++ Nat.repr index

/-- `RuntimePool._spawn_locked`: capacity guard, name generation and
conflict check, port assignment, then register the new worker at the end
of the dict.  Raised `RuntimeError`s are the `Except.error` branch.
(The gateway registration of the booting endpoint has no effect on pool
state and is omitted here.) -/
def spawnLocked (cfg : PoolConfig) (s : PoolState) (name : Option String)
    (port : Option ℤ) : Except String (RuntimeProcess × PoolState) :=
  if 0 < cfg.maxRuntimes ∧ cfg.maxRuntimes ≤ (s.procs.length : ℤ) then
    .error "Maximum runtime capacity reached"
  else
    let workerName := name.getD (mkWorkerName (s.procs.length + 1))
    if s.procs.any (fun w => w.name == workerName) then
      .error ("Worker \x27" ++ workerName ++ "\x27 already exists")
    else
      let assignedPort := port.getD s.portCursor
      let cursor :=
        match port with
        | none => s.portCursor + 1
        | some p => max s.portCursor (p + 1)
      let proc : RuntimeProcess :=
        { name := workerName, port := assignedPort, startedAt := s.clock }
      .ok (proc, { procs := s.procs ++ [proc], desired := s.desired
                   portCursor := cursor, clock := s.clock + 1 })

/-- Python `max(items, key=started_at)` over the dict values: the first
worker with the maximal `started_at`, scanning in insertion order. -/
def firstMaxStarted (best : RuntimeProcess) : List RuntimeProcess → RuntimeProcess
  | [] => best
  | w :: ws => firstMaxStarted (if w.startedAt > best.startedAt then w else best) ws

/-- Dict `pop(name)`: remove the entry with the given worker name. -/
def popByName : List RuntimeProcess → String → List RuntimeProcess
  | [], _ => []
  | w :: ws, n => if w.name == n then ws else w :: popByName ws n

/-- `RuntimePool._shrink_locked`: evict the most recently started worker
(no-op on an empty pool). -/
def shrinkLocked (s : PoolState) : PoolState :=
  match s.procs with
  | [] => s
  | w :: ws =>
    let victim := firstMaxStarted w ws
    { s with procs := popByName s.procs victim.name }

/-- The grow half of `_ensure_capacity_locked`: spawn `n` more workers. -/
def growLoop (cfg : PoolConfig) : ℕ → PoolState → Except String PoolState
  | 0, s => .ok s
  | n + 1, s =>
    match spawnLocked cfg s none none with
    | .error e => .error e
    | .ok (_, s1) => growLoop cfg n s1

/-- The shrink half of `_ensure_capacity_locked`: evict `n` workers. -/
def shrinkLoop : ℕ → PoolState → PoolState
  | 0, s => s
  | n + 1, s => shrinkLoop n (shrinkLocked s)

/-- `RuntimePool._ensure_capacity_locked`: bring the worker count up or
down to `desired`. -/
def ensureCapacityLocked (cfg : PoolConfig) (s : PoolState) : Except String PoolState :=
  if (s.procs.length : ℤ) < s.desired then
    growLoop cfg (s.desired - (s.procs.length : ℤ)).toNat s
  else
    .ok (shrinkLoop ((s.procs.length : ℤ) - s.desired).toNat s)

/-- `RuntimePool.set_desired_capacity` (the body of `scale_to`). -/
def setDesiredCapacity (cfg : PoolConfig) (s : PoolState) (desired : ℤ) :
    Except String PoolState :=
  ensureCapacityLocked cfg { s with desired := boundCapacity cfg desired }

/-- In-place `new_proc.restarts = proc.restarts + 1` after a restart
spawn: rewrite the restart counter of the worker with that name. -/
def updateRestarts (procs : List RuntimeProcess) (n : String) (r : ℕ) :
    List RuntimeProcess :=
  procs.map (fun w => if w.name == n then { w with restarts := r } else w)

/-- `RuntimePool._restart_locked`: drop the dead worker, respawn it with
the same name and port, and carry `restarts + 1` over. -/
def restartLocked (cfg : PoolConfig) (s : PoolState) (proc : RuntimeProcess) :
    Except String PoolState :=
  let s1 := { s with procs := popByName s.procs proc.name }
  match spawnLocked cfg s1 (some proc.name) (some proc.port) with
  | .error e => .error e
  | .ok (newProc, s2) =>
    .ok { s2 with procs := updateRestarts s2.procs newProc.name (proc.restarts + 1) }

/-- Restart each dead worker collected by the heartbeat scan, in
insertion order. -/
def restartLoop (cfg : PoolConfig) : List RuntimeProcess → PoolState → Except String PoolState
  | [], s => .ok s
  | p :: ps, s =>
    match restartLocked cfg s p with
    | .error e => .error e
    | .ok s1 => restartLoop cfg ps s1

/-- `RuntimePool.heartbeat`: reconcile capacity, then restart dead
workers in place.  The subsequent health collection, endpoint
re-publication and metrics ring append read the workers but change none
of the state modelled here. -/
def poolHeartbeat (cfg : PoolConfig) (s : PoolState) : Except String PoolState :=
  match ensureCapacityLocked cfg s with
  | .error e => .error e
  | .ok s1 => restartLoop cfg (s1.procs.filter (fun w => !w.alive)) s1

/-- `RuntimePool.active_count`: number of live workers. -/
def liveCount (s : PoolState) : ℕ := (s.procs.filter (fun w => w.alive)).length

/-- Look a worker up by name (dict access on `_processes`). -/
def findWorker (s : PoolState) (n : String) : Option RuntimeProcess :=
  s.procs.find? (fun w => w.name == n)

/-- The operations quantified over by the capacity invariant. -/
inductive PoolOp where
  | scaleTo (d : ℤ)
  | heartbeat
deriving DecidableEq

/-- Apply one pool operation. -/
def applyPoolOp (cfg : PoolConfig) (s : PoolState) : PoolOp → Except String PoolState
  | .scaleTo d => setDesiredCapacity cfg s d
  | .heartbeat => poolHeartbeat cfg s

/-- Apply a sequence of pool operations, stopping at the first raised
exception. -/
def applyPoolOps (cfg : PoolConfig) : PoolState → List PoolOp → Except String PoolState
  | s, [] => .ok s
  | s, op :: ops =>
    match applyPoolOp cfg s op with
    | .error e => .error e
    | .ok s1 => applyPoolOps cfg s1 ops

/-- The argument of the most recent `scale_to` in the sequence. -/
def lastScaleRequest : List PoolOp → Option ℤ
  | [] => none
  | op :: ops =>
    match lastScaleRequest ops with
    | some d => some d
    | none =>
      match op with
      | .scaleTo d => some d
      | .heartbeat => none

/-- The capacity formula the specification claims:
`max(min, min(max or ∞, d))`, with `max = 0` meaning unbounded. -/
def claimCapacity (minR maxR d : ℤ) : ℤ :=
  max minR (if maxR = 0 then d else min maxR d)

/-- Canonical worker names after k spawns with generated names:
`runtime-1` … `runtime-k`. -/
def canonicalNames (k : ℕ) : List String :=
  (List.range k).map (fun i => mkWorkerName (i + 1))

/-- The shape every pool state reachable through `scale_to` /
`heartbeat` alone (no crashes, no explicit spawns) has: k workers named
`runtime-1` … `runtime-k` in order, all alive, started at strictly
increasing clock ticks, all before the current clock. -/
def poolCanonical (s : PoolState) (k : ℕ) : Prop :=
  s.procs.map (fun w => w.name) = canonicalNames k
  ∧ (∀ w ∈ s.procs, w.alive = true)
  ∧ List.Pairwise (fun a b => a.startedAt < b.startedAt) s.procs
  ∧ (∀ w ∈ s.procs, w.startedAt < s.clock)

/-! ## core/runtime_gateway.py -/

/-- `RuntimeEndpoint` after `__post_init__` (protocol already
lowercased and validated).  Metadata values are modelled as strings. -/
structure RuntimeEndpoint where
  name : String
  protocol : String
  address : String
  metadata : List (String × String) := []
deriving DecidableEq

/-- The `_PROTOCOLS` set.  (The source builds it as a Python set; the
order here is immaterial, only membership is used.) -/
def gatewayProtocols : List String := ["grpc", "http", "ws", "ipc"]

/-- The `RuntimeEndpoint` constructor including `__post_init__`:
lowercase the protocol and reject unsupported ones (`ValueError` is the
`Except.error` branch). -/
def mkRuntimeEndpoint (name protocol address : String)
    (metadata : List (String × String)) : Except String RuntimeEndpoint :=
  let proto := pyLower protocol
  if gatewayProtocols.contains proto then
    .ok { name := name, protocol := proto, address := address, metadata := metadata }
  else
    .error ("Unsupported protocol \x27" ++ protocol ++ "\x27.")

/-- `RuntimeGateway._endpoints`: protocol → (name → endpoint), both
levels insertion-ordered. -/
structure RuntimeGateway where
  endpoints : List (String × List (String × RuntimeEndpoint))
deriving DecidableEq

/-- A gateway as built by `RuntimeGateway.__init__`: one empty name map
per supported protocol. -/
def emptyGateway : RuntimeGateway :=
  ⟨gatewayProtocols.map (fun p => (p, []))⟩

/-- Generic ordered-dict assignment. -/
def setAssoc {β : Type} : List (String × β) → String → β → List (String × β)
  | [], k, v => [(k, v)]
  | (k0, v0) :: rest, k, v =>
    if k0 == k then (k, v) :: rest else (k0, v0) :: setAssoc rest k v

/-- Generic ordered-dict lookup. -/
def getAssoc {β : Type} : List (String × β) → String → Option β
  | [], _ => none
  | (k0, v0) :: rest, k => if k0 == k then some v0 else getAssoc rest k

/-- Generic ordered-dict deletion. -/
def delAssoc {β : Type} : List (String × β) → String → List (String × β)
  | [], _ => []
  | (k0, v0) :: rest, k => if k0 == k then rest else (k0, v0) :: delAssoc rest k

/-- Raw access to the inner name map of one protocol bucket, without any
lowercasing (the `self._endpoints.get(proto, {}).get(name)` step). -/
def gatewayGet (g : RuntimeGateway) (proto name : String) : Option RuntimeEndpoint :=
  match getAssoc g.endpoints proto with
  | none => none
  | some protoMap => getAssoc protoMap name

/-- `RuntimeGateway.register`: `setdefault` the protocol bucket, then
overwrite at the endpoint's name.  The endpoint's protocol is already
lowercase, by construction. -/
def registerEndpoint (g : RuntimeGateway) (e : RuntimeEndpoint) : RuntimeGateway :=
  match getAssoc g.endpoints e.protocol with
  | none => ⟨g.endpoints ++ [(e.protocol, [(e.name, e)])]⟩
  | some protoMap => ⟨setAssoc g.endpoints e.protocol (setAssoc protoMap e.name e)⟩

/-- Raw deletion at a protocol bucket, without lowercasing. -/
def gatewayDel (g : RuntimeGateway) (proto name : String) : RuntimeGateway :=
  match getAssoc g.endpoints proto with
  | none => g
  | some protoMap =>
    if (getAssoc protoMap name).isSome then
      ⟨setAssoc g.endpoints proto (delAssoc protoMap name)⟩
    else g

/-- `RuntimeGateway.unregister`: lowercase the protocol argument, then
delete the name if present. -/
def unregisterEndpoint (g : RuntimeGateway) (protocol name : String) : RuntimeGateway :=
  gatewayDel g (pyLower protocol) name

/-- `RuntimeGateway.find`: lowercase the protocol argument, then look
the name up. -/
def findEndpoint (g : RuntimeGateway) (protocol name : String) : Option RuntimeEndpoint :=
  gatewayGet g (pyLower protocol) name

/-- Raw listing of one protocol bucket (empty when the bucket is missing
or empty — Python's falsiness check on the dict). -/
def gatewayList (g : RuntimeGateway) (proto : String) : List RuntimeEndpoint :=
  match getAssoc g.endpoints proto with
  | none => []
  | some protoMap => protoMap.map Prod.snd

/-- `RuntimeGateway.endpoints(protocol)` for a given protocol argument:
lowercase it, then list that bucket. -/
def endpointsOf (g : RuntimeGateway) (protocol : String) : List RuntimeEndpoint :=
  gatewayList g (pyLower protocol)

/-! ## Association-list lemmas -/

theorem getRecord_setRecord_self (l : List (String × TokenMetadata)) (tok : String)
    (meta : TokenMetadata) : getRecord (setRecord l tok meta) tok = some meta := by
  induction l with
  | nil => simp [setRecord, getRecord]
  | cons kv rest ih =>
    obtain ⟨k, v⟩ := kv
    by_cases hk : k == tok
    · simp [setRecord, hk, getRecord]
    · simp [setRecord, hk, getRecord, ih]

theorem setRecord_keys (l : List (String × TokenMetadata)) (tok : String)
    (meta : TokenMetadata) :
    (setRecord l tok meta).map Prod.fst =
      if tok ∈ l.map Prod.fst then l.map Prod.fst else l.map Prod.fst ++ [tok] := by
  induction l with
  | nil => simp [setRecord]
  | cons kv rest ih =>
    obtain ⟨k, v⟩ := kv
    by_cases hk : k == tok
    · have hkeq : k = tok := by simpa using hk
      subst hkeq
      simp [setRecord, getRecord]
    · have hkne : k ≠ tok := by simpa using hk
      by_cases hmem : tok ∈ rest.map Prod.fst
      · simp [setRecord, hk, ih, hmem, Ne.symm hkne]
      · simp [setRecord, hk, ih, hmem, Ne.symm hkne]

theorem setRecord_keys_nodup (l : List (String × TokenMetadata)) (tok : String)
    (meta : TokenMetadata) (h : (l.map Prod.fst).Nodup) :
    ((setRecord l tok meta).map Prod.fst).Nodup := by
  rw [setRecord_keys]
  by_cases hmem : tok ∈ l.map Prod.fst
  · simpa [hmem] using h
  · simp [hmem, List.nodup_append, h]

theorem getRecord_none_of_not_mem (l : List (String × TokenMetadata)) (tok : String)
    (h : tok ∉ l.map Prod.fst) : getRecord l tok = none := by
  induction l with
  | nil => simp [getRecord]
  | cons kv rest ih =>
    obtain ⟨k, v⟩ := kv
    simp only [List.map_cons, List.mem_cons, not_or] at h
    simp only [getRecord, beq_iff_eq, if_neg (Ne.symm h.1)]
    exact ih h.2

theorem getRecord_removeRecord_self (l : List (String × TokenMetadata)) (tok : String)
    (h : (l.map Prod.fst).Nodup) : getRecord (removeRecord l tok) tok = none := by
  induction l with
  | nil => simp [removeRecord, getRecord]
  | cons kv rest ih =>
    obtain ⟨k, v⟩ := kv
    simp only [List.map_cons, List.nodup_cons] at h
    by_cases hk : k == tok
    · have hkeq : k = tok := beq_iff_eq.mp hk
      subst hkeq
      simp only [removeRecord, hk, if_pos]
      exact getRecord_none_of_not_mem rest k h.1
    · have hkne : k ≠ tok := fun hcontra => hk (by simp [hcontra])
      simp only [removeRecord, hk, Bool.false_eq_true, if_neg, getRecord]
      rw [if_neg (by simp [hkne])]
      exact ih h.2

/-! ## Claims about core/auth.py -/

/-- Claim C9: for a token value absent from the records map,
`record_usage` returns normally (no exception raised), leaves the
manager state unchanged, saves nothing to the token store, and writes no
audit event. -/
theorem recordUsage_unknown_token_noop (m : AuthManager) (token : String) (now : ℚ)
    (h : getRecord m.records token = none) :
    recordUsage m token now = ⟨m, false, false, false⟩ := by
  unfold recordUsage
  rw [h]

/-- Witness for C9: a concrete manager with no records. -/
theorem recordUsage_unknown_token_noop_witness :
    recordUsage ⟨[], 3600, 120⟩ "missing" 0 = ⟨⟨[], 3600, 120⟩, false, false, false⟩ :=
  recordUsage_unknown_token_noop ⟨[], 3600, 120⟩ "missing" 0 rfl

/-- Claim C5: minting with `ttl_seconds ≤ 0` produces a token without an
expiry (so `is_expired` is false at every wall-clock time), and for any
stored token with an expiry, `validate` returns none at every wall-clock
time ≥ `expires_at`. -/
theorem mint_no_ttl_and_validate_expired
    (m : AuthManager) (tokenValue : String) (now : ℚ) (subject : String)
    (scopes : List String) (ttl : ℚ) (admin : Bool) (rl : Option ℤ)
    (httl : ttl ≤ 0)
    (m2 : AuthManager) (tok2 : String) (now2 : ℚ) (scope2 : Option String)
    (meta2 : TokenMetadata) (e2 : ℚ)
    (hget : getRecord m2.records tok2 = some meta2)
    (hexp : meta2.expiresAt = some e2) (hle : e2 ≤ now2) :
    (mintToken m tokenValue now subject scopes (some ttl) admin rl).2.expiresAt = none
    ∧ (∀ t : ℚ, isExpired (mintToken m tokenValue now subject scopes (some ttl) admin rl).2 t = false)
    ∧ validate m2 tok2 now2 scope2 = none := by
  have hnone :
      (mintToken m tokenValue now subject scopes (some ttl) admin rl).2.expiresAt = none := by
    simp [mintToken, httl]
  refine ⟨hnone, fun t => ?_, ?_⟩
  · simp [isExpired, hnone]
  · unfold validate
    rw [hget]
    have : isExpired meta2 now2 = true := by
      simp [isExpired, hexp]
      exact hle
    simp [this]

/-- Witness for C5: mint with ttl 0 in an empty manager; validate a token
that expired at time 3 when the clock reads 5. -/
theorem mint_no_ttl_and_validate_expired_witness :
    (mintToken ⟨[], 3600, 120⟩ "tok" 0 "svc" [] (some 0) false none).2.expiresAt = none
    ∧ (∀ t : ℚ, isExpired (mintToken ⟨[], 3600, 120⟩ "tok" 0 "svc" [] (some 0) false none).2 t = false)
    ∧ validate ⟨[("old", ⟨"old", "svc", [], 0, some 3, false, 120, none, 0, 0⟩)], 3600, 120⟩
        "old" 5 none = none :=
  mint_no_ttl_and_validate_expired ⟨[], 3600, 120⟩ "tok" 0 "svc" [] 0 false none
    (le_refl 0) ⟨[("old", ⟨"old", "svc", [], 0, some 3, false, 120, none, 0, 0⟩)], 3600, 120⟩
    "old" 5 none ⟨"old", "svc", [], 0, some 3, false, 120, none, 0, 0⟩ 3 rfl rfl (by norm_num)

/-- Claim C6: a freshly minted token that is not yet expired validates to
its own metadata, and after revoking it, validation returns none.  The
records map is assumed to have distinct keys, the invariant a Python
dict guarantees. -/
theorem mint_validate_revoke_roundtrip
    (m : AuthManager) (tokenValue : String) (now now2 : ℚ) (subject : String)
    (scopes : List String) (ttl : Option ℚ) (admin : Bool) (rl : Option ℤ)
    (hnodup : (m.records.map Prod.fst).Nodup)
    (hunexp : isExpired (mintToken m tokenValue now subject scopes ttl admin rl).2 now2 = false) :
    validate (mintToken m tokenValue now subject scopes ttl admin rl).1 tokenValue now2 none
      = some (mintToken m tokenValue now subject scopes ttl admin rl).2
    ∧ validate ((revokeToken (mintToken m tokenValue now subject scopes ttl admin rl).1
        tokenValue).1) tokenValue now2 none = none := by
  constructor
  · unfold validate
    rw [show (mintToken m tokenValue now subject scopes ttl admin rl).1.records
        = setRecord m.records tokenValue (mintToken m tokenValue now subject scopes ttl admin rl).2
        from rfl]
    rw [getRecord_setRecord_self]
    simp [hunexp]
  · unfold validate
    rw [show ((revokeToken (mintToken m tokenValue now subject scopes ttl admin rl).1
        tokenValue).1).records
        = removeRecord (setRecord m.records tokenValue
            (mintToken m tokenValue now subject scopes ttl admin rl).2) tokenValue
        from rfl]
    rw [getRecord_removeRecord_self _ _ (setRecord_keys_nodup _ _ _ hnodup)]

/-- Witness for C6: mint a never-expiring token in an empty manager and
validate before and after revocation. -/
theorem mint_validate_revoke_roundtrip_witness :
    validate (mintToken ⟨[], 3600, 120⟩ "tok" 0 "svc" [] (some 0) false none).1 "tok" 1 none
      = some (mintToken ⟨[], 3600, 120⟩ "tok" 0 "svc" [] (some 0) false none).2
    ∧ validate ((revokeToken (mintToken ⟨[], 3600, 120⟩ "tok" 0 "svc" [] (some 0) false none).1
        "tok").1) "tok" 1 none = none :=
  mint_validate_revoke_roundtrip ⟨[], 3600, 120⟩ "tok" 0 1 "svc" [] (some 0) false none
    (by simp) (by norm_num [mintToken, isExpired])

theorem usageStateN_lookup (m : AuthManager) (tok : String) (now : ℚ) (meta : TokenMetadata)
    (hm : getRecord m.records tok = some meta)
    (hfresh : 60 ≤ now - meta.windowStart) :
    ∀ k : ℕ, getRecord (usageStateN m tok now (k + 1)).records tok =
      some { meta with windowStart := now, windowCount := (k : ℤ) + 1,
                       lastUsedAt := some now } := by
  intro k
  induction k with
  | zero =>
    show getRecord (recordUsage (usageStateN m tok now 0) tok now).state.records tok = _
    unfold usageStateN recordUsage
    rw [hm]
    simp only [if_pos hfresh]
    split
    · rw [getRecord_setRecord_self]; norm_num
    · rw [getRecord_setRecord_self]; norm_num
  | succ k ih =>
    show getRecord (recordUsage (usageStateN m tok now (k + 1)) tok now).state.records tok = _
    unfold recordUsage
    rw [ih]
    have hnofresh : ¬ (now - now ≥ 60) := by norm_num
    simp only [hnofresh, if_neg, if_false]
    split
    · rw [getRecord_setRecord_self]; push_cast; norm_num
    · rw [getRecord_setRecord_self]; push_cast; norm_num

/-- Claim C4: from a fresh window, the first `r` `record_usage` calls at
one wall-clock instant succeed, the (r+1)-th raises
`rate_limit_exceeded`, and once 60 seconds have passed since the window
started the counter resets, so a later call succeeds again. -/
theorem recordUsage_rate_limit_window (m : AuthManager) (tok : String) (now : ℚ)
    (meta : TokenMetadata) (r : ℕ) (hr : 1 ≤ r)
    (hm : getRecord m.records tok = some meta)
    (hrate : meta.rateLimitPerMinute = (r : ℤ))
    (hfresh : 60 ≤ now - meta.windowStart) :
    (∀ k : ℕ, k < r → usageRaised m tok now k = false)
    ∧ usageRaised m tok now r = true
    ∧ (∀ now2 : ℚ, 60 ≤ now2 - now →
        (recordUsage (usageStateN m tok now (r + 1)) tok now2).rateLimited = false) := by
  have hstate := usageStateN_lookup m tok now meta hm hfresh
  refine ⟨?_, ?_, ?_⟩
  · intro k hk
    match k with
    | 0 =>
      unfold usageRaised usageStateN recordUsage
      rw [hm]
      simp only [if_pos hfresh]
      have hcond : ¬ (meta.rateLimitPerMinute < 1) := by
        rw [hrate]; omega
      simp [hcond]
    | k + 1 =>
      unfold usageRaised recordUsage
      rw [hstate k]
      have hnofresh : ¬ (now - now ≥ 60) := by norm_num
      have : ¬ ((k : ℤ) + 1 + 1 > meta.rateLimitPerMinute) := by
        rw [hrate]; omega
      simp only [hnofresh, if_neg, if_false]
      simp [this]
  · match r, hr with
    | r + 1, _ =>
      unfold usageRaised recordUsage
      rw [hstate r]
      have hnofresh : ¬ (now - now ≥ 60) := by norm_num
      have : ((r : ℤ) + 1 + 1 > meta.rateLimitPerMinute) := by
        rw [hrate]; push_cast; omega
      simp only [hnofresh, if_neg, if_false]
      simp [this]
  · intro now2 hnow2
    unfold recordUsage
    rw [hstate r]
    have hfresh2 : now2 - now ≥ 60 := hnow2
    simp only [if_pos hfresh2]
    have hcond : ¬ (meta.rateLimitPerMinute < 1) := by
      rw [hrate]; omega
    simp [hcond]

/-- Witness for C4: one token with `rate_limit_per_minute = 1` and a
window that started at time 0, exercised at time 60. -/
theorem recordUsage_rate_limit_window_witness :
    (∀ k : ℕ, k < 1 →
      usageRaised ⟨[("t", ⟨"t", "svc", [], 0, none, false, 1, none, 0, 0⟩)], 3600, 120⟩
        "t" 60 k = false)
    ∧ usageRaised ⟨[("t", ⟨"t", "svc", [], 0, none, false, 1, none, 0, 0⟩)], 3600, 120⟩
        "t" 60 1 = true
    ∧ (∀ now2 : ℚ, 60 ≤ now2 - 60 →
        (recordUsage (usageStateN ⟨[("t", ⟨"t", "svc", [], 0, none, false, 1, none, 0, 0⟩)],
          3600, 120⟩ "t" 60 (1 + 1)) "t" now2).rateLimited = false) :=
  recordUsage_rate_limit_window
    ⟨[("t", ⟨"t", "svc", [], 0, none, false, 1, none, 0, 0⟩)], 3600, 120⟩ "t" 60
    ⟨"t", "svc", [], 0, none, false, 1, none, 0, 0⟩ 1 (le_refl 1) rfl (by norm_num)
    (by norm_num)

/-! ## Claims about core/sandbox.py -/

theorem execute_error_of_denied {α : Type} (perms : SandboxPermissions)
    (action : SandboxAction α) (denied : List String)
    (h : deniedOf perms action.requiredPermissions = .ok denied) (hne : denied ≠ [])
    (child : ChildOutcome α) (elapsed : ℚ) :
    execute perms action child elapsed =
      .error (.permissionError (permissionDeniedMessage action.target denied)) := by
  unfold execute
  rw [h]
  simp [hne]

theorem execute_ok_of_allowed {α : Type} (perms : SandboxPermissions)
    (action : SandboxAction α)
    (h : deniedOf perms action.requiredPermissions = .ok [])
    (child : ChildOutcome α) (elapsed : ℚ) :
    ∃ r : SandboxResult α, execute perms action child elapsed = .ok r := by
  unfold execute
  rw [h]
  simp only [ne_eq, not_true_eq_false, if_false, reduceIte]
  cases child with
  | stillRunningAtDeadline => exact ⟨_, rfl⟩
  | exitedNoMessage => exact ⟨_, rfl⟩
  | delivered payload =>
    by_cases hs : payload.status = "ok"
    · exact ⟨{ success := true, value := payload.result, stdout := payload.stdout
               stderr := payload.stderr, duration := payload.duration, timedOut := false
               error := none, limits := payload.limits, usage := payload.usage },
        by simp [hs]⟩
    · exact ⟨{ success := false, value := none, stdout := payload.stdout
               stderr := payload.stderr, duration := elapsed, timedOut := false
               error := some (payload.error.getD "Unknown sandbox failure")
               limits := payload.limits, usage := payload.usage },
        by simp [hs]⟩

/-- Counterexample for claim C1: with the default (all-off) permissions,
executing an action that requires `file_access` does not return a
`SandboxResult` — `execute` raises `PermissionError` to the caller
(exactly what `test_sandbox_requires_permission` expects). -/
theorem execute_denied_permission_counterexample :
    execute (α := ℕ) ⟨false, false, false, false, false⟩
      ⟨"tests.sandbox_targets:write_file", [], [], ["file_access"]⟩
      ChildOutcome.exitedNoMessage 0
    = Except.error (SandboxError.permissionError
        "Action \x27tests.sandbox_targets:write_file\x27 requires disabled permissions: file_access") := by
  rfl

/-- Claim C1 (amended): when some required permission is disabled,
`execute` raises `PermissionError` naming the sorted disabled
permissions — the child is never consulted (the result is the same for
every child behaviour and elapsed time); when every required permission
is enabled, no exception propagates and the caller gets a
`SandboxResult`. -/
theorem execute_permission_gate {α : Type} (perms : SandboxPermissions)
    (action : SandboxAction α) (denied : List String)
    (h : deniedOf perms action.requiredPermissions = .ok denied) :
    (denied ≠ [] → ∀ (child : ChildOutcome α) (elapsed : ℚ),
      execute perms action child elapsed =
        .error (.permissionError (permissionDeniedMessage action.target denied)))
    ∧ (denied = [] → ∀ (child : ChildOutcome α) (elapsed : ℚ),
      ∃ r : SandboxResult α, execute perms action child elapsed = .ok r) := by
  constructor
  · intro hne child elapsed
    exact execute_error_of_denied perms action denied h hne child elapsed
  · intro hnil child elapsed
    subst hnil
    exact execute_ok_of_allowed perms action h child elapsed

/-- Witness for the amended C1, exercising both arms on concrete
actions. -/
theorem execute_permission_gate_witness :
    (execute (α := ℕ) ⟨false, false, false, false, false⟩
        ⟨"tests.sandbox_targets:write_file", [], [], ["file_access"]⟩
        ChildOutcome.stillRunningAtDeadline 1
      = Except.error (SandboxError.permissionError
          "Action \x27tests.sandbox_targets:write_file\x27 requires disabled permissions: file_access"))
    ∧ (∃ r : SandboxResult ℕ,
        execute ⟨false, false, false, false, false⟩
          ⟨"tests.sandbox_targets:add_numbers", [2, 3], [], []⟩
          ChildOutcome.exitedNoMessage 1 = .ok r) :=
  ⟨(execute_permission_gate ⟨false, false, false, false, false⟩
      ⟨"tests.sandbox_targets:write_file", [], [], ["file_access"]⟩ ["file_access"] rfl).1
        (by decide) ChildOutcome.stillRunningAtDeadline 1,
   (execute_permission_gate ⟨false, false, false, false, false⟩
      ⟨"tests.sandbox_targets:add_numbers", [2, 3], [], []⟩ [] rfl).2 rfl
        ChildOutcome.exitedNoMessage 1⟩

/-- Claim C8: when the child is still running when the
`wall_time_seconds` join deadline expires, `execute` kills it and
returns `success = false`, `timed_out = true`, no value, and the error
string "Timed out waiting for sandbox action". -/
theorem execute_timeout_result {α : Type} (perms : SandboxPermissions)
    (action : SandboxAction α) (elapsed : ℚ)
    (h : deniedOf perms action.requiredPermissions = .ok []) :
    execute perms action ChildOutcome.stillRunningAtDeadline elapsed =
      .ok { success := false, value := none, stdout := "", stderr := ""
            duration := elapsed, timedOut := true
            error := some "Timed out waiting for sandbox action" } := by
  unfold execute
  rw [h]
  simp

/-- Witness for C8: the scenario of `test_sandbox_times_out` — a slow
target with no required permissions. -/
theorem execute_timeout_result_witness :
    execute (α := ℕ) ⟨false, false, false, false, false⟩
      ⟨"tests.sandbox_targets:slow_operation", [1], [], []⟩
      ChildOutcome.stillRunningAtDeadline 0 =
      .ok { success := false, value := none, stdout := "", stderr := ""
            duration := 0, timedOut := true
            error := some "Timed out waiting for sandbox action" } :=
  execute_timeout_result ⟨false, false, false, false, false⟩
    ⟨"tests.sandbox_targets:slow_operation", [1], [], []⟩ 0 rfl

/-! ## Claims about core/runtime_gateway.py -/

theorem getAssoc_setAssoc_self {β : Type} (l : List (String × β)) (k : String) (v : β) :
    getAssoc (setAssoc l k v) k = some v := by
  induction l with
  | nil => simp [setAssoc, getAssoc]
  | cons kv rest ih =>
    obtain ⟨k0, v0⟩ := kv
    by_cases hk : k0 == k
    · simp [setAssoc, hk, getAssoc]
    · simp [setAssoc, hk, getAssoc, ih]

theorem getAssoc_append_right {β : Type} (l : List (String × β)) (k : String) (v : β)
    (h : getAssoc l k = none) : getAssoc (l ++ [(k, v)]) k = some v := by
  induction l with
  | nil => simp [getAssoc]
  | cons kv rest ih =>
    obtain ⟨k0, v0⟩ := kv
    by_cases hk : k0 == k
    · simp [getAssoc, hk] at h
    · have hkne : ¬ k0 = k := fun hcontra => hk (by simp [hcontra])
      simp only [getAssoc, List.cons_append] at h ⊢
      rw [if_neg (by simpa using hkne)] at h ⊢
      exact ih h

theorem gatewayGet_registerEndpoint_self (g : RuntimeGateway) (e : RuntimeEndpoint) :
    gatewayGet (registerEndpoint g e) e.protocol e.name = some e := by
  unfold registerEndpoint gatewayGet
  cases hb : getAssoc g.endpoints e.protocol with
  | none =>
    simp only
    rw [getAssoc_append_right g.endpoints e.protocol _ hb]
    simp [getAssoc]
  | some protoMap =>
    simp only
    rw [getAssoc_setAssoc_self]
    show getAssoc (setAssoc protoMap e.name e) e.name = some e
    exact getAssoc_setAssoc_self protoMap e.name e

theorem mkRuntimeEndpoint_ok_fields (name protocol address : String)
    (metadata : List (String × String)) (e : RuntimeEndpoint)
    (h : mkRuntimeEndpoint name protocol address metadata = .ok e) :
    e = { name := name, protocol := pyLower protocol, address := address,
          metadata := metadata } := by
  simp only [mkRuntimeEndpoint] at h
  by_cases hc : gatewayProtocols.contains (pyLower protocol)
  · rw [if_pos hc] at h
    injection h with h1
    exact h1.symm
  · rw [if_neg hc] at h
    cases h

/-- Claim C10: endpoint identity is case-insensitive in the protocol
component.  Constructing a `RuntimeEndpoint` lowercases its protocol;
`find`, `unregister` and `endpoints` lowercase their protocol argument
(each equals the raw map access at the lowercased protocol); and an
endpoint constructed under "HTTP" is found under "http" and vice
versa. -/
theorem endpoint_protocol_case_insensitive :
    (∀ (name protocol address : String) (metadata : List (String × String))
        (e : RuntimeEndpoint),
      mkRuntimeEndpoint name protocol address metadata = .ok e →
        e.protocol = pyLower protocol)
    ∧ (∀ (g : RuntimeGateway) (protocol name : String),
        findEndpoint g protocol name = gatewayGet g (pyLower protocol) name)
    ∧ (∀ (g : RuntimeGateway) (protocol name : String),
        unregisterEndpoint g protocol name = gatewayDel g (pyLower protocol) name)
    ∧ (∀ (g : RuntimeGateway) (protocol : String),
        endpointsOf g protocol = gatewayList g (pyLower protocol))
    ∧ (∀ (g : RuntimeGateway) (name address : String)
        (metadata : List (String × String)) (e : RuntimeEndpoint),
      mkRuntimeEndpoint name "HTTP" address metadata = .ok e →
        findEndpoint (registerEndpoint g e) "http" name = some e)
    ∧ (∀ (g : RuntimeGateway) (name address : String)
        (metadata : List (String × String)) (e : RuntimeEndpoint),
      mkRuntimeEndpoint name "http" address metadata = .ok e →
        findEndpoint (registerEndpoint g e) "HTTP" name = some e) := by
  refine ⟨?_, fun _ _ _ => rfl, fun _ _ _ => rfl, fun _ _ => rfl, ?_, ?_⟩
  · intro name protocol address metadata e h
    rw [mkRuntimeEndpoint_ok_fields name protocol address metadata e h]
  · intro g name address metadata e h
    have he := mkRuntimeEndpoint_ok_fields name "HTTP" address metadata e h
    have hproto : e.protocol = "http" := by rw [he]; rfl
    have hname : e.name = name := by rw [he]
    show gatewayGet (registerEndpoint g e) (pyLower "http") name = some e
    rw [show pyLower "http" = "http" from rfl, ← hproto, ← hname]
    exact gatewayGet_registerEndpoint_self g e
  · intro g name address metadata e h
    have he := mkRuntimeEndpoint_ok_fields name "http" address metadata e h
    have hproto : e.protocol = "http" := by rw [he]; rfl
    have hname : e.name = name := by rw [he]
    show gatewayGet (registerEndpoint g e) (pyLower "HTTP") name = some e
    rw [show pyLower "HTTP" = "http" from rfl, ← hproto, ← hname]
    exact gatewayGet_registerEndpoint_self g e

/-- Witness for C10: register "api" under "HTTP" into the empty gateway
and find it under "http". -/
theorem endpoint_protocol_case_insensitive_witness :
    findEndpoint
      (registerEndpoint emptyGateway ⟨"api", "http", "http://127.0.0.1:9600", []⟩)
      "http" "api" = some ⟨"api", "http", "http://127.0.0.1:9600", []⟩ :=
  endpoint_protocol_case_insensitive.2.2.2.2.1 emptyGateway "api" "http://127.0.0.1:9600"
    [] ⟨"api", "http", "http://127.0.0.1:9600", []⟩ rfl

/-! ## Claims about core/supervisor.py -/

theorem cleanupHistory_noop (w now : ℚ) (hist : List ℚ) (hw : 0 < w)
    (h : ∀ t ∈ hist, now - t ≤ w) : cleanupHistory w now hist = hist := by
  unfold cleanupHistory
  rw [max_eq_right hw.le, if_neg (not_le.mpr hw)]
  cases hist with
  | nil => rfl
  | cons t ts =>
    have ht : ¬ (t < now - w) := by
      have := h t (List.mem_cons_self t ts)
      linarith
    simp [List.dropWhile, ht]

theorem exitT_mono (spawnT exitT : ℕ → ℚ)
    (hse : ∀ n, spawnT n ≤ exitT n) (hes : ∀ n, exitT n ≤ spawnT (n + 1)) :
    ∀ i j, i ≤ j → exitT i ≤ exitT j := by
  intro i j hij
  induction j with
  | zero =>
    have : i = 0 := Nat.le_zero.mp hij
    simp [this]
  | succ j ih =>
    rcases Nat.le_succ_iff.mp hij with h | h
    · exact le_trans (ih h) (le_trans (hes j) (hse (j + 1)))
    · simp [h]

theorem exitT_le_spawnT (spawnT exitT : ℕ → ℚ)
    (hse : ∀ n, spawnT n ≤ exitT n) (hes : ∀ n, exitT n ≤ spawnT (n + 1)) :
    ∀ j k, j < k → exitT j ≤ spawnT k := by
  intro j k hjk
  match k, hjk with
  | k + 1, hjk =>
    exact le_trans (exitT_mono spawnT exitT hse hes j k (Nat.lt_succ_iff.mp hjk)) (hes k)

theorem runAux_always_failing (cfg : SupervisorConfig) (code : ℕ → ℤ)
    (spawnT exitT : ℕ → ℚ) (m : ℕ)
    (hm : cfg.maxRestarts = (m : ℤ)) (hm1 : 1 ≤ m)
    (hw : 0 < cfg.windowSeconds)
    (hcode : ∀ n, code n = 1)
    (hse : ∀ n, spawnT n ≤ exitT n) (hes : ∀ n, exitT n ≤ spawnT (n + 1))
    (hwin : exitT (m - 1) - exitT 0 ≤ cfg.windowSeconds) :
    ∀ fuel k, k < m → m - k ≤ fuel →
      runAux cfg code spawnT exitT fuel k ((List.range k).map exitT) k =
        some ⟨1, m, m⟩ := by
  intro fuel
  induction fuel with
  | zero => intro k hk hfuel; omega
  | succ fuel ih =>
    intro k hk hfuel
    have hmem : ∀ t ∈ (List.range k).map exitT, ∃ j, j < k ∧ t = exitT j := by
      intro t ht
      rcases List.mem_map.mp ht with ⟨j, hj, rfl⟩
      exact ⟨j, List.mem_range.mp hj, rfl⟩
    have hbound : ∀ j, j < m → exitT j ≤ exitT (m - 1) :=
      fun j hj => exitT_mono spawnT exitT hse hes j (m - 1) (by omega)
    have hlow : ∀ j, exitT 0 ≤ exitT j :=
      fun j => exitT_mono spawnT exitT hse hes 0 j (Nat.zero_le j)
    have hclean1 :
        cleanupHistory cfg.windowSeconds (spawnT k) ((List.range k).map exitT) =
          (List.range k).map exitT := by
      apply cleanupHistory_noop _ _ _ hw
      intro t ht
      rcases hmem t ht with ⟨j, hj, rfl⟩
      have h1 : spawnT k ≤ exitT (m - 1) :=
        le_trans (hse k) (hbound k hk)
      have h2 : exitT 0 ≤ exitT j := hlow j
      linarith
    have hclean2 :
        cleanupHistory cfg.windowSeconds (exitT k)
            ((List.range k).map exitT ++ [exitT k]) =
          (List.range k).map exitT ++ [exitT k] := by
      apply cleanupHistory_noop _ _ _ hw
      intro t ht
      rcases List.mem_append.mp ht with ht | ht
      · rcases hmem t ht with ⟨j, hj, rfl⟩
        have h1 : exitT k ≤ exitT (m - 1) := hbound k hk
        have h2 : exitT 0 ≤ exitT j := hlow j
        linarith
      · have : t = exitT k := by simpa using ht
        subst this
        have h1 : exitT k ≤ exitT (m - 1) := hbound k hk
        have h2 : exitT 0 ≤ exitT k := hlow k
        linarith
    have hlen : ((List.range k).map exitT ++ [exitT k]).length = k + 1 := by simp
    have hlist : (List.range k).map exitT ++ [exitT k] = (List.range (k + 1)).map exitT := by
      rw [List.range_succ, List.map_append]
      rfl
    unfold runAux
    rw [hclean1, hcode k]
    simp only [one_ne_zero, if_false, reduceIte]
    rw [hclean2]
    by_cases hlast : k + 1 < m
    · have hsr : shouldRestart cfg.maxRestarts ((List.range k).map exitT ++ [exitT k]) = true := by
        unfold shouldRestart
        rw [hm]
        have hmax : max 0 (m : ℤ) = (m : ℤ) := by omega
        rw [hmax, if_neg (by omega : ¬ (m : ℤ) = 0)]
        rw [hlen]
        simp only [decide_eq_true_eq]
        omega
      rw [hsr]
      simp only [if_true, reduceIte]
      rw [hlist]
      exact ih (k + 1) hlast (by omega)
    · have hkm : k + 1 = m := by omega
      have hsr : shouldRestart cfg.maxRestarts ((List.range k).map exitT ++ [exitT k]) = false := by
        unfold shouldRestart
        rw [hm]
        have hmax : max 0 (m : ℤ) = (m : ℤ) := by omega
        rw [hmax, if_neg (by omega : ¬ (m : ℤ) = 0)]
        rw [hlen]
        simp only [decide_eq_false_iff_not]
        omega
      rw [hsr]
      simp only [Bool.false_eq_true, if_false, reduceIte]
      rw [hkm]

/-- Counterexample for claim C2: with `max_restarts = 2` and a child
that always exits 1 (all exits inside one window), `Supervisor.run`
launches the child exactly 2 times in total, i.e. restarts it only
2 − 1 = 1 time after the initial launch — not 2 times as the claim
states.  (The recorded `_restart_count` does end at 2: the supervisor
also registers a "restart" for the final exit it gives up on.) -/
theorem supervisor_restart_budget_counterexample :
    supervisorRun ⟨2, 60, 0, 0⟩ (fun _ => 1) (fun n => (n : ℚ)) (fun n => (n : ℚ)) 2 =
      some ⟨1, 2, 2⟩
    ∧ (2 : ℕ) - 1 ≠ 2 := by
  constructor
  · have h := runAux_always_failing ⟨2, 60, 0, 0⟩ (fun _ => 1)
      (fun n => (n : ℚ)) (fun n => (n : ℚ)) 2 (by norm_num) (by norm_num) (by norm_num)
      (fun n => rfl) (fun n => le_refl _)
      (fun n => by simp only []; exact_mod_cast Nat.le_succ n)
      (by push_cast; norm_num)
      2 0 (by norm_num) (by norm_num)
    simpa [supervisorRun] using h
  · decide

/-- Claim C2 (amended): if the child exits 1 on every run, all exits fall
inside one `window_seconds` window, and `max_restarts = m ≥ 1`, then
`Supervisor.run` launches the child m times in total — i.e. restarts it
m − 1 times after the initial launch — registers m restart events (the
final `_restart_count` is m, which is what the state file and
`test_supervisor_respects_restart_budget` report), and returns exit
code 1. -/
theorem supervisor_restart_budget (cfg : SupervisorConfig) (code : ℕ → ℤ)
    (spawnT exitT : ℕ → ℚ) (m fuel : ℕ)
    (hm : cfg.maxRestarts = (m : ℤ)) (hm1 : 1 ≤ m)
    (hw : 0 < cfg.windowSeconds)
    (hcode : ∀ n, code n = 1)
    (hse : ∀ n, spawnT n ≤ exitT n) (hes : ∀ n, exitT n ≤ spawnT (n + 1))
    (hwin : exitT (m - 1) - exitT 0 ≤ cfg.windowSeconds)
    (hfuel : m ≤ fuel) :
    supervisorRun cfg code spawnT exitT fuel = some ⟨1, m, m⟩ := by
  have h := runAux_always_failing cfg code spawnT exitT m hm hm1 hw hcode hse hes hwin
    fuel 0 (by omega) (by omega)
  simpa [supervisorRun] using h

/-- Witness for the amended C2: budget 3, child always exits 1 at clock
ticks 0, 1, 2. -/
theorem supervisor_restart_budget_witness :
    supervisorRun ⟨3, 60, 0, 0⟩ (fun _ => 1) (fun n => (n : ℚ)) (fun n => (n : ℚ)) 5 =
      some ⟨1, 3, 3⟩ :=
  supervisor_restart_budget ⟨3, 60, 0, 0⟩ (fun _ => 1) (fun n => (n : ℚ))
    (fun n => (n : ℚ)) 3 5 (by norm_num) (by norm_num) (by norm_num) (fun n => rfl)
    (fun n => le_refl _) (fun n => by simp only []; exact_mod_cast Nat.le_succ n)
    (by push_cast; norm_num) (by norm_num)

/-! ## Claims about core/runtime_pool.py -/

theorem toDigitsCore_append (b : ℕ) : ∀ (f n : ℕ) (l : List Char),
    Nat.toDigitsCore b f n l = Nat.toDigitsCore b f n [] ++ l := by
  intro f
  induction f with
  | zero => intro n l; simp [Nat.toDigitsCore]
  | succ f ih =>
    intro n l
    simp only [Nat.toDigitsCore]
    by_cases h : n / b = 0
    · simp [h]
    · rw [if_neg h, if_neg h, ih (n / b) ((n % b).digitChar :: l),
        ih (n / b) [(n % b).digitChar]]
      simp

theorem toDigitsCore_ne_nil (f n : ℕ) : Nat.toDigitsCore 10 (f + 1) n [] ≠ [] := by
  simp only [Nat.toDigitsCore]
  by_cases h : n / 10 = 0
  · simp [h]
  · rw [if_neg h, toDigitsCore_append]
    simp

theorem toDigitsCore_fuel (n : ℕ) : ∀ f1 f2 : ℕ, n < f1 → n < f2 →
    Nat.toDigitsCore 10 f1 n [] = Nat.toDigitsCore 10 f2 n [] := by
  induction n using Nat.strong_induction_on with
  | _ n ih =>
    intro f1 f2 h1 h2
    cases f1 with
    | zero => omega
    | succ f1 =>
      cases f2 with
      | zero => omega
      | succ f2 =>
        simp only [Nat.toDigitsCore]
        by_cases h : n / 10 = 0
        · simp [h]
        · rw [if_neg h, if_neg h, toDigitsCore_append 10 f1, toDigitsCore_append 10 f2]
          congr 1
          have hq : n / 10 < n := Nat.div_lt_self (by omega) (by omega)
          exact ih (n / 10) hq f1 f2 (by omega) (by omega)

theorem digitChar_inj_lt10 :
    ∀ a < 10, ∀ b < 10, Nat.digitChar a = Nat.digitChar b → a = b := by decide

theorem toDigits_ten_inj (n : ℕ) : ∀ m : ℕ, Nat.toDigits 10 n = Nat.toDigits 10 m → n = m := by
  induction n using Nat.strong_induction_on with
  | _ n ih =>
    intro m h
    unfold Nat.toDigits at h
    simp only [Nat.toDigitsCore] at h
    by_cases hn : n / 10 = 0 <;> by_cases hm : m / 10 = 0
    · rw [if_pos hn, if_pos hm] at h
      have hd : (n % 10).digitChar = (m % 10).digitChar := by
        simpa using h
      have := digitChar_inj_lt10 (n % 10) (by omega) (m % 10) (by omega) hd
      omega
    · obtain ⟨m2, rfl⟩ : ∃ m2, m = m2 + 1 := ⟨m - 1, by omega⟩
      rw [if_pos hn, if_neg hm,
        toDigitsCore_append 10 (m2 + 1) ((m2 + 1) / 10) [((m2 + 1) % 10).digitChar]] at h
      have hlen := congrArg List.length h
      simp only [List.length_append, List.length_cons, List.length_nil] at hlen
      have hne := toDigitsCore_ne_nil m2 ((m2 + 1) / 10)
      have hpos : 1 ≤ (Nat.toDigitsCore 10 (m2 + 1) ((m2 + 1) / 10) []).length :=
        List.length_pos.mpr hne
      omega
    · obtain ⟨n2, rfl⟩ : ∃ n2, n = n2 + 1 := ⟨n - 1, by omega⟩
      rw [if_neg hn, if_pos hm,
        toDigitsCore_append 10 (n2 + 1) ((n2 + 1) / 10) [((n2 + 1) % 10).digitChar]] at h
      have hlen := congrArg List.length h
      simp only [List.length_append, List.length_cons, List.length_nil] at hlen
      have hne := toDigitsCore_ne_nil n2 ((n2 + 1) / 10)
      have hpos : 1 ≤ (Nat.toDigitsCore 10 (n2 + 1) ((n2 + 1) / 10) []).length :=
        List.length_pos.mpr hne
      omega
    · rw [if_neg hn, if_neg hm,
        toDigitsCore_append 10 n (n / 10) [(n % 10).digitChar],
        toDigitsCore_append 10 m (m / 10) [(m % 10).digitChar]] at h
      have hrev := congrArg List.reverse h
      simp only [List.reverse_append, List.reverse_cons, List.reverse_nil,
        List.nil_append, List.singleton_append] at hrev
      injection hrev with hd htail
      have hq10 : n / 10 < n := Nat.div_lt_self (by omega) (by omega)
      have hA : Nat.toDigitsCore 10 n (n / 10) [] = Nat.toDigits 10 (n / 10) := by
        unfold Nat.toDigits
        exact toDigitsCore_fuel (n / 10) n (n / 10 + 1) (by omega) (by omega)
      have hB : Nat.toDigitsCore 10 m (m / 10) [] = Nat.toDigits 10 (m / 10) := by
        unfold Nat.toDigits
        have hq10m : m / 10 < m := Nat.div_lt_self (by omega) (by omega)
        exact toDigitsCore_fuel (m / 10) m (m / 10 + 1) (by omega) (by omega)
      have htd : Nat.toDigits 10 (n / 10) = Nat.toDigits 10 (m / 10) := by
        rw [← hA, ← hB]
        have := congrArg List.reverse htail
        simpa using this
      have hqq := ih (n / 10) hq10 (m / 10) htd
      have hmod := digitChar_inj_lt10 (n % 10) (by omega) (m % 10) (by omega) hd
      omega

theorem natRepr_inj (a b : ℕ) (h : Nat.repr a = Nat.repr b) : a = b := by
  unfold Nat.repr at h
  have hd := congrArg String.data h
  simp only [List.asString] at hd
  exact toDigits_ten_inj a b hd

theorem mkWorkerName_inj (a b : ℕ) (h : mkWorkerName a = mkWorkerName b) : a = b := by
  unfold mkWorkerName at h
  have hd := congrArg String.data h
  simp only [String.data_append] at hd
  have hcancel := List.append_cancel_left hd
  exact natRepr_inj a b (String.ext hcancel)

theorem canonicalNames_length (k : ℕ) : (canonicalNames k).length = k := by
  simp [canonicalNames]

theorem canonicalNames_succ (k : ℕ) :
    canonicalNames (k + 1) = canonicalNames k ++ [mkWorkerName (k + 1)] := by
  simp [canonicalNames, List.range_succ]

theorem mkWorkerName_not_mem_canonical (k : ℕ) :
    mkWorkerName (k + 1) ∉ canonicalNames k := by
  intro hmem
  rcases List.mem_map.mp hmem with ⟨i, hi, hname⟩
  have := mkWorkerName_inj (i + 1) (k + 1) hname
  have hik := List.mem_range.mp hi
  omega

theorem poolCanonical_length (s : PoolState) (k : ℕ) (hc : poolCanonical s k) :
    s.procs.length = k := by
  have := congrArg List.length hc.1
  simpa [canonicalNames_length] using this

theorem spawnLocked_canonical (cfg : PoolConfig) (s : PoolState) (k : ℕ)
    (hc : poolCanonical s k)
    (hmax : cfg.maxRuntimes ≤ 0 ∨ (k : ℤ) < cfg.maxRuntimes) :
    spawnLocked cfg s none none =
      .ok (⟨mkWorkerName (k + 1), s.portCursor, s.clock, 0, true⟩,
           { procs := s.procs ++ [⟨mkWorkerName (k + 1), s.portCursor, s.clock, 0, true⟩]
             desired := s.desired, portCursor := s.portCursor + 1, clock := s.clock + 1 })
    ∧ poolCanonical
        { procs := s.procs ++ [⟨mkWorkerName (k + 1), s.portCursor, s.clock, 0, true⟩]
          desired := s.desired, portCursor := s.portCursor + 1, clock := s.clock + 1 }
        (k + 1) := by
  have hlen : s.procs.length = k := poolCanonical_length s k hc
  have hguard : ¬ (0 < cfg.maxRuntimes ∧ cfg.maxRuntimes ≤ (s.procs.length : ℤ)) := by
    rw [hlen]
    rcases hmax with h | h
    · omega
    · omega
  have hfresh : s.procs.any (fun w => w.name == mkWorkerName (s.procs.length + 1)) = false := by
    rw [List.any_eq_false]
    intro w hw
    simp only [beq_iff_eq]
    intro hcontra
    have hmem : mkWorkerName (s.procs.length + 1) ∈ s.procs.map (fun w => w.name) :=
      List.mem_map.mpr ⟨w, hw, hcontra⟩
    rw [hc.1, hlen] at hmem
    exact mkWorkerName_not_mem_canonical k hmem
  constructor
  · unfold spawnLocked
    rw [if_neg hguard]
    simp only [Option.getD_none]
    rw [hfresh]
    simp only [Bool.false_eq_true, if_neg, if_false]
    rw [hlen]
  · refine ⟨?_, ?_, ?_, ?_⟩
    · simp only [List.map_append, List.map_cons, List.map_nil]
      rw [hc.1, canonicalNames_succ]
    · intro w hw
      rcases List.mem_append.mp hw with hw | hw
      · exact hc.2.1 w hw
      · simp at hw
        rw [hw]
    · rw [List.pairwise_append]
      refine ⟨hc.2.2.1, by simp, ?_⟩
      intro a ha b hb
      simp only [List.mem_singleton] at hb
      rw [hb]
      exact hc.2.2.2 a ha
    · intro w hw
      rcases List.mem_append.mp hw with hw | hw
      · have := hc.2.2.2 w hw
        show w.startedAt < s.clock + 1
        omega
      · simp at hw
        rw [hw]
        show s.clock < s.clock + 1
        omega

theorem growLoop_canonical (cfg : PoolConfig) :
    ∀ (j : ℕ) (s : PoolState) (k : ℕ), poolCanonical s k →
      (cfg.maxRuntimes ≤ 0 ∨ (k : ℤ) + (j : ℤ) ≤ cfg.maxRuntimes) →
      ∃ s1, growLoop cfg j s = .ok s1 ∧ poolCanonical s1 (k + j) ∧ s1.desired = s.desired := by
  intro j
  induction j with
  | zero => intro s k hc hmax; exact ⟨s, rfl, hc, rfl⟩
  | succ j ih =>
    intro s k hc hmax
    have hmax1 : cfg.maxRuntimes ≤ 0 ∨ (k : ℤ) < cfg.maxRuntimes := by
      rcases hmax with h | h
      · exact Or.inl h
      · right; omega
    obtain ⟨hspawn, hcanon⟩ := spawnLocked_canonical cfg s k hc hmax1
    have hmax2 : cfg.maxRuntimes ≤ 0 ∨ ((k + 1 : ℕ) : ℤ) + (j : ℤ) ≤ cfg.maxRuntimes := by
      rcases hmax with h | h
      · exact Or.inl h
      · right; push_cast; push_cast at h; omega
    obtain ⟨s1, hloop, hc1, hd1⟩ := ih _ (k + 1) hcanon hmax2
    refine ⟨s1, ?_, ?_, ?_⟩
    · unfold growLoop
      rw [hspawn]
      exact hloop
    · have harr : k + (j + 1) = k + 1 + j := by omega
      rw [harr]
      exact hc1
    · exact hd1

theorem firstMaxStarted_append (l : List RuntimeProcess) :
    ∀ (b w : RuntimeProcess), (∀ x ∈ b :: l, x.startedAt < w.startedAt) →
      firstMaxStarted b (l ++ [w]) = w := by
  induction l with
  | nil =>
    intro b w h
    have hb : b.startedAt < w.startedAt := h b (List.mem_cons_self b [])
    simp only [List.nil_append, firstMaxStarted]
    rw [if_pos hb]
  | cons x rest ih =>
    intro b w h
    simp only [List.cons_append, firstMaxStarted]
    apply ih
    intro y hy
    rcases List.mem_cons.mp hy with hy | hy
    · subst hy
      by_cases hxb : x.startedAt > b.startedAt
      · rw [if_pos hxb]; exact h x (by simp)
      · rw [if_neg hxb]; exact h b (by simp)
    · exact h y (by simp [hy])

theorem popByName_append_self (l : List RuntimeProcess) (w : RuntimeProcess)
    (h : w.name ∉ l.map (fun x => x.name)) : popByName (l ++ [w]) w.name = l := by
  induction l with
  | nil => simp [popByName]
  | cons x rest ih =>
    simp only [List.map_cons, List.mem_cons, not_or] at h
    simp only [List.cons_append, popByName]
    rw [if_neg (by simpa using Ne.symm h.1)]
    simp only [List.append_eq]
    rw [ih h.2]

theorem shrinkLocked_canonical (s : PoolState) (k : ℕ) (hc : poolCanonical s (k + 1)) :
    poolCanonical (shrinkLocked s) k
    ∧ (shrinkLocked s).desired = s.desired ∧ (shrinkLocked s).clock = s.clock := by
  have hlen : s.procs.length = k + 1 := poolCanonical_length s (k + 1) hc
  rcases List.eq_nil_or_concat s.procs with hnil | ⟨l, w, hdecomp⟩
  · rw [hnil] at hlen; simp at hlen
  · rw [List.concat_eq_append] at hdecomp
    have hnames : l.map (fun x => x.name) ++ [w.name] =
        canonicalNames k ++ [mkWorkerName (k + 1)] := by
      have := hc.1
      rw [hdecomp, canonicalNames_succ] at this
      simpa using this
    have hllen : (l.map (fun x => x.name)).length = (canonicalNames k).length := by
      have := congrArg List.length hdecomp
      simp only [List.length_append, List.length_cons, List.length_nil] at this
      rw [hlen] at this
      simp [canonicalNames_length]
      omega
    have hsplit := List.append_inj hnames hllen
    have hlnames : l.map (fun x => x.name) = canonicalNames k := hsplit.1
    have hwname : w.name = mkWorkerName (k + 1) := by
      have := hsplit.2
      simpa using this
    have hwnotin : w.name ∉ l.map (fun x => x.name) := by
      rw [hwname, hlnames]
      exact mkWorkerName_not_mem_canonical k
    have hpair := hc.2.2.1
    rw [hdecomp, List.pairwise_append] at hpair
    have hlt : ∀ x ∈ l, x.startedAt < w.startedAt := by
      intro x hx
      exact hpair.2.2 x hx w (by simp)
    have hvictim : ∀ b t, l = b :: t → firstMaxStarted b (t ++ [w]) = w := by
      intro b t hbt
      apply firstMaxStarted_append
      intro x hx
      apply hlt
      rw [hbt]
      exact hx
    have hshrink : (shrinkLocked s).procs = l ∧ (shrinkLocked s).desired = s.desired
        ∧ (shrinkLocked s).clock = s.clock := by
      unfold shrinkLocked
      cases hl : l with
      | nil =>
        rw [hdecomp, hl]
        simp only [List.nil_append]
        simp [popByName, firstMaxStarted]
      | cons b t =>
        rw [hdecomp, hl]
        simp only [List.cons_append]
        rw [hvictim b t hl]
        have : popByName ((b :: t) ++ [w]) w.name = b :: t := by
          apply popByName_append_self
          rw [← hl]
          exact hwnotin
        simp only [List.cons_append] at this
        rw [this]
        simp
    refine ⟨⟨?_, ?_, ?_, ?_⟩, hshrink.2.1, hshrink.2.2⟩
    · rw [hshrink.1, hlnames]
    · intro x hx
      exact hc.2.1 x (by rw [hdecomp]; exact List.mem_append_left _ (hshrink.1 ▸ hx))
    · have := hc.2.2.1
      rw [hdecomp, List.pairwise_append] at this
      rw [hshrink.1]
      exact this.1
    · intro x hx
      rw [hshrink.2.2]
      exact hc.2.2.2 x (by rw [hdecomp]; exact List.mem_append_left _ (hshrink.1 ▸ hx))

theorem shrinkLoop_canonical : ∀ (j : ℕ) (s : PoolState) (k : ℕ),
    poolCanonical s (k + j) →
    poolCanonical (shrinkLoop j s) k ∧ (shrinkLoop j s).desired = s.desired := by
  intro j
  induction j with
  | zero => intro s k hc; exact ⟨hc, rfl⟩
  | succ j ih =>
    intro s k hc
    have harr : k + (j + 1) = (k + j) + 1 := by omega
    rw [harr] at hc
    obtain ⟨hc1, hd1, _⟩ := shrinkLocked_canonical s (k + j) hc
    have := ih (shrinkLocked s) k hc1
    refine ⟨?_, ?_⟩
    · show poolCanonical (shrinkLoop j (shrinkLocked s)) k
      exact this.1
    · show (shrinkLoop j (shrinkLocked s)).desired = s.desired
      rw [this.2, hd1]

theorem ensureCapacity_canonical (cfg : PoolConfig) (s : PoolState) (k : ℕ)
    (hc : poolCanonical s k) (hd0 : 0 ≤ s.desired)
    (hdmax : cfg.maxRuntimes ≤ 0 ∨ s.desired ≤ cfg.maxRuntimes) :
    ∃ s1, ensureCapacityLocked cfg s = .ok s1 ∧ poolCanonical s1 s.desired.toNat
      ∧ s1.desired = s.desired := by
  have hlen : s.procs.length = k := poolCanonical_length s k hc
  unfold ensureCapacityLocked
  rw [hlen]
  by_cases hlt : (k : ℤ) < s.desired
  · rw [if_pos hlt]
    have hmax : cfg.maxRuntimes ≤ 0 ∨ (k : ℤ) + ((s.desired - (k : ℤ)).toNat : ℤ) ≤ cfg.maxRuntimes := by
      rcases hdmax with h | h
      · exact Or.inl h
      · right; omega
    obtain ⟨s1, hloop, hc1, hd1⟩ := growLoop_canonical cfg (s.desired - (k : ℤ)).toNat s k hc hmax
    refine ⟨s1, hloop, ?_, hd1⟩
    have : k + (s.desired - (k : ℤ)).toNat = s.desired.toNat := by omega
    rw [← this]
    exact hc1
  · rw [if_neg hlt]
    have harr : k = s.desired.toNat + ((k : ℤ) - s.desired).toNat := by omega
    rw [harr] at hc
    obtain ⟨hc1, hd1⟩ := shrinkLoop_canonical ((k : ℤ) - s.desired).toNat s s.desired.toNat hc
    exact ⟨_, rfl, hc1, hd1⟩

theorem boundCapacity_ok (cfg : PoolConfig) (hmin : 0 ≤ cfg.minRuntimes)
    (hminmax : cfg.maxRuntimes = 0 ∨ cfg.minRuntimes ≤ cfg.maxRuntimes) (d : ℤ) :
    0 ≤ boundCapacity cfg d ∧ cfg.minRuntimes ≤ boundCapacity cfg d
    ∧ (cfg.maxRuntimes ≤ 0 ∨ boundCapacity cfg d ≤ cfg.maxRuntimes)
    ∧ boundCapacity cfg d = claimCapacity cfg.minRuntimes cfg.maxRuntimes d := by
  simp only [boundCapacity, claimCapacity]
  split_ifs <;> omega

theorem restartLoop_nil (cfg : PoolConfig) (s : PoolState) :
    restartLoop cfg [] s = .ok s := rfl

theorem poolCanonical_no_dead (s : PoolState) (k : ℕ) (hc : poolCanonical s k) :
    s.procs.filter (fun w => !w.alive) = [] := by
  rw [List.filter_eq_nil_iff]
  intro w hw
  simp [hc.2.1 w hw]

theorem applyPoolOp_canonical (cfg : PoolConfig) (hmin : 0 ≤ cfg.minRuntimes)
    (hminmax : cfg.maxRuntimes = 0 ∨ cfg.minRuntimes ≤ cfg.maxRuntimes)
    (s : PoolState) (k : ℕ) (op : PoolOp)
    (hc : poolCanonical s k) (hd0 : 0 ≤ s.desired)
    (hdmax : cfg.maxRuntimes ≤ 0 ∨ s.desired ≤ cfg.maxRuntimes) :
    ∃ s1, applyPoolOp cfg s op = .ok s1 ∧ poolCanonical s1 s1.desired.toNat
      ∧ 0 ≤ s1.desired ∧ (cfg.maxRuntimes ≤ 0 ∨ s1.desired ≤ cfg.maxRuntimes)
      ∧ s1.desired = (match op with
          | .scaleTo d => boundCapacity cfg d
          | .heartbeat => s.desired) := by
  cases op with
  | scaleTo d =>
    obtain ⟨hb0, hbmin, hbmax, hbclaim⟩ := boundCapacity_ok cfg hmin hminmax d
    have hc2 : poolCanonical { s with desired := boundCapacity cfg d } k := hc
    obtain ⟨s1, hens, hc1, hd1⟩ := ensureCapacity_canonical cfg
      { s with desired := boundCapacity cfg d } k hc2 hb0 hbmax
    refine ⟨s1, hens, ?_, ?_, ?_, ?_⟩
    · rw [hd1]
      exact hc1
    · rw [hd1]; exact hb0
    · rw [hd1]; exact hbmax
    · rw [hd1]
  | heartbeat =>
    obtain ⟨s1, hens, hc1, hd1⟩ := ensureCapacity_canonical cfg s k hc hd0 hdmax
    have hdead := poolCanonical_no_dead s1 s.desired.toNat hc1
    refine ⟨s1, ?_, ?_, ?_, ?_, ?_⟩
    · show poolHeartbeat cfg s = .ok s1
      unfold poolHeartbeat
      rw [hens]
      show restartLoop cfg (List.filter (fun w => !w.alive) s1.procs) s1 = Except.ok s1
      rw [hdead]
      exact restartLoop_nil cfg s1
    · rw [hd1]; exact hc1
    · rw [hd1]; exact hd0
    · rw [hd1]; exact hdmax
    · exact hd1

theorem applyPoolOps_canonical (cfg : PoolConfig) (hmin : 0 ≤ cfg.minRuntimes)
    (hminmax : cfg.maxRuntimes = 0 ∨ cfg.minRuntimes ≤ cfg.maxRuntimes) :
    ∀ (ops : List PoolOp) (s : PoolState) (k : ℕ),
      poolCanonical s k → 0 ≤ s.desired →
      (cfg.maxRuntimes ≤ 0 ∨ s.desired ≤ cfg.maxRuntimes) →
      ∃ s1, applyPoolOps cfg s ops = .ok s1
        ∧ (ops = [] → s1 = s)
        ∧ (ops ≠ [] → poolCanonical s1 s1.desired.toNat)
        ∧ s1.desired = (match lastScaleRequest ops with
            | some d => boundCapacity cfg d
            | none => s.desired) := by
  intro ops
  induction ops with
  | nil =>
    intro s k hc hd0 hdmax
    exact ⟨s, rfl, fun _ => rfl, fun h => absurd rfl h, rfl⟩
  | cons op rest ih =>
    intro s k hc hd0 hdmax
    obtain ⟨s2, hstep, hc2, hd02, hdmax2, hdes2⟩ :=
      applyPoolOp_canonical cfg hmin hminmax s k op hc hd0 hdmax
    obtain ⟨s1, hrest, hnil1, hne1, hdes1⟩ :=
      ih s2 s2.desired.toNat hc2 hd02 hdmax2
    refine ⟨s1, ?_, ?_, ?_, ?_⟩
    · show applyPoolOps cfg s (op :: rest) = .ok s1
      unfold applyPoolOps
      rw [hstep]
      exact hrest
    · intro h; cases h
    · intro _
      by_cases hr : rest = []
      · rw [hnil1 hr]
        exact hc2
      · exact hne1 hr
    · cases op with
      | scaleTo d =>
        cases hls : lastScaleRequest rest with
        | some d2 =>
          have hcons : lastScaleRequest (PoolOp.scaleTo d :: rest) = some d2 := by
            show (match lastScaleRequest rest with
              | some d0 => some d0
              | none => some d) = some d2
            rw [hls]
          rw [hcons]
          rw [hls] at hdes1
          simpa using hdes1
        | none =>
          have hcons : lastScaleRequest (PoolOp.scaleTo d :: rest) = some d := by
            show (match lastScaleRequest rest with
              | some d0 => some d0
              | none => some d) = some d
            rw [hls]
          rw [hcons]
          rw [hls] at hdes1
          simp only at hdes1
          rw [hdes1]
          simpa using hdes2
      | heartbeat =>
        cases hls : lastScaleRequest rest with
        | some d2 =>
          have hcons : lastScaleRequest (PoolOp.heartbeat :: rest) = some d2 := by
            show (match lastScaleRequest rest with
              | some d0 => some d0
              | none => none) = some d2
            rw [hls]
          rw [hcons]
          rw [hls] at hdes1
          simpa using hdes1
        | none =>
          have hcons : lastScaleRequest (PoolOp.heartbeat :: rest) = none := by
            show (match lastScaleRequest rest with
              | some d0 => some d0
              | none => none) = none
            rw [hls]
          rw [hcons]
          rw [hls] at hdes1
          simp only at hdes1
          rw [hdes1]
          simpa using hdes2

theorem poolCanonical_liveCount (s : PoolState) (k : ℕ) (hc : poolCanonical s k) :
    liveCount s = k := by
  unfold liveCount
  rw [List.filter_eq_self.mpr (fun w hw => by simp [hc.2.1 w hw])]
  exact poolCanonical_length s k hc

theorem initialPoolState_canonical (cfg : PoolConfig) :
    poolCanonical (initialPoolState cfg) 0 := by
  refine ⟨?_, ?_, ?_, ?_⟩
  · simp [initialPoolState, canonicalNames]
  · intro w hw; simp [initialPoolState] at hw
  · simp [initialPoolState]
  · intro w hw; simp [initialPoolState] at hw

/-- Claim C3: for every pool configuration satisfying the documented
config invariant (`0 ≤ min`, and `min ≤ max` unless `max = 0` meaning
unbounded) and every sequence of `scale_to(d)` / `heartbeat()` calls
with no worker crashes, no call raises and after the sequence the number
of live workers equals `max(min, min(max or ∞, d))` for the most
recently requested `d`. -/
theorem pool_capacity_invariant (cfg : PoolConfig) (ops : List PoolOp) (d : ℤ)
    (hmin : 0 ≤ cfg.minRuntimes)
    (hminmax : cfg.maxRuntimes = 0 ∨ cfg.minRuntimes ≤ cfg.maxRuntimes)
    (hlast : lastScaleRequest ops = some d) :
    ∃ s, applyPoolOps cfg (initialPoolState cfg) ops = .ok s
      ∧ (liveCount s : ℤ) = claimCapacity cfg.minRuntimes cfg.maxRuntimes d := by
  have hinit := initialPoolState_canonical cfg
  obtain ⟨hb0, hbmin, hbmax, _⟩ :=
    boundCapacity_ok cfg hmin hminmax (cfg.desiredRuntimes.getD cfg.minRuntimes)
  obtain ⟨s1, hops, hnil1, hne1, hdes1⟩ :=
    applyPoolOps_canonical cfg hmin hminmax ops (initialPoolState cfg) 0 hinit hb0 hbmax
  have hopsne : ops ≠ [] := by
    intro hcontra
    rw [hcontra] at hlast
    cases hlast
  have hc1 := hne1 hopsne
  rw [hlast] at hdes1
  simp only at hdes1
  obtain ⟨hd0, _, _, hclaim⟩ := boundCapacity_ok cfg hmin hminmax d
  refine ⟨s1, hops, ?_⟩
  rw [poolCanonical_liveCount s1 s1.desired.toNat hc1]
  rw [← hclaim, ← hdes1]
  omega

/-- Witness for C3: a two-worker-max pool scaled to 1 then heartbeaten.
The scale request itself already reconciles capacity, and the heartbeat
leaves it at 1 = max(0, min(2, 1)). -/
theorem pool_capacity_invariant_witness :
    ∃ s, applyPoolOps ⟨0, 2, none, 9600⟩ (initialPoolState ⟨0, 2, none, 9600⟩)
        [PoolOp.scaleTo 1, PoolOp.heartbeat] = .ok s
      ∧ (liveCount s : ℤ) = claimCapacity 0 2 1 :=
  pool_capacity_invariant ⟨0, 2, none, 9600⟩ [PoolOp.scaleTo 1, PoolOp.heartbeat] 1
    (by decide) (Or.inr (by decide)) rfl

theorem popByName_middle (pre post : List RuntimeProcess) (x : RuntimeProcess) (n : String)
    (hx : x.name = n) (h : n ∉ pre.map (fun w => w.name)) :
    popByName (pre ++ x :: post) n = pre ++ post := by
  induction pre with
  | nil =>
    simp only [List.nil_append, popByName]
    rw [if_pos (by simp [hx])]
  | cons y ys ih =>
    simp only [List.map_cons, List.mem_cons, not_or] at h
    simp only [List.cons_append, popByName]
    rw [if_neg (by simpa using Ne.symm h.1)]
    simp only [List.append_eq]
    rw [ih h.2]

theorem findWorker_append_fresh (l : List RuntimeProcess) (x : RuntimeProcess) (n : String)
    (h : n ∉ l.map (fun w => w.name)) (hx : x.name = n) :
    (l ++ [x]).find? (fun w => w.name == n) = some x := by
  induction l with
  | nil =>
    simp [List.find?, hx]
  | cons y ys ih =>
    simp only [List.map_cons, List.mem_cons, not_or] at h
    simp only [List.cons_append, List.find?]
    rw [show (y.name == n) = false by simpa using Ne.symm h.1]
    exact ih h.2

theorem updateRestarts_append_fresh (l : List RuntimeProcess) (x : RuntimeProcess)
    (n : String) (r : ℕ) (h : n ∉ l.map (fun w => w.name)) :
    updateRestarts (l ++ [x]) n r =
      l ++ [if x.name == n then { x with restarts := r } else x] := by
  unfold updateRestarts
  rw [List.map_append]
  congr 1
  · induction l with
    | nil => rfl
    | cons y ys ih =>
      simp only [List.map_cons, List.mem_cons, not_or] at h
      simp only [List.map_cons]
      rw [show (y.name == n) = false by simpa using Ne.symm h.1]
      simp only [Bool.false_eq_true, if_neg, if_false]
      rw [ih h.2]

theorem spawnLocked_named (cfg : PoolConfig) (s1 : PoolState) (n : String) (p : ℤ)
    (hguard : ¬ (0 < cfg.maxRuntimes ∧ cfg.maxRuntimes ≤ (s1.procs.length : ℤ)))
    (hany : s1.procs.any (fun w => w.name == n) = false) :
    spawnLocked cfg s1 (some n) (some p) =
      .ok (⟨n, p, s1.clock, 0, true⟩,
        { procs := s1.procs ++ [⟨n, p, s1.clock, 0, true⟩], desired := s1.desired
          portCursor := max s1.portCursor (p + 1), clock := s1.clock + 1 }) := by
  unfold spawnLocked
  rw [if_neg hguard]
  simp only [Option.getD_some]
  rw [hany]
  simp only [Bool.false_eq_true, if_neg, if_false]

/-- Claim C7: a dead worker (name n, port p, restart count c) in an
otherwise healthy pool at its desired capacity is restarted in place by
the next `heartbeat()`: afterwards the pool holds a live worker with the
same name, the same port, and `restarts = c + 1`. -/
theorem pool_restart_in_place (cfg : PoolConfig) (s : PoolState)
    (pre post : List RuntimeProcess) (n : String) (p : ℤ) (t c : ℕ)
    (hprocs : s.procs = pre ++ ⟨n, p, t, c, false⟩ :: post)
    (halive : ∀ w ∈ pre ++ post, w.alive = true)
    (huniq : n ∉ (pre ++ post).map (fun w => w.name))
    (hlen : (s.procs.length : ℤ) = s.desired)
    (hmax : cfg.maxRuntimes ≤ 0 ∨ (s.procs.length : ℤ) ≤ cfg.maxRuntimes) :
    ∃ s1, poolHeartbeat cfg s = .ok s1
      ∧ findWorker s1 n = some ⟨n, p, s.clock, c + 1, true⟩ := by
  have hpren : n ∉ pre.map (fun w => w.name) := by
    intro hmem
    exact huniq (by rw [List.map_append]; exact List.mem_append_left _ hmem)
  -- capacity is already reconciled, so _ensure_capacity_locked is a no-op
  have hens : ensureCapacityLocked cfg s = .ok s := by
    unfold ensureCapacityLocked
    rw [if_neg (by omega)]
    have h0 : ((s.procs.length : ℤ) - s.desired).toNat = 0 := by omega
    rw [h0]
    rfl
  -- the dead-worker scan finds exactly the dead worker
  have hpre0 : pre.filter (fun w => !w.alive) = [] :=
    List.filter_eq_nil_iff.mpr
      (fun w hw => by simp [halive w (List.mem_append_left _ hw)])
  have hpost0 : post.filter (fun w => !w.alive) = [] :=
    List.filter_eq_nil_iff.mpr
      (fun w hw => by simp [halive w (List.mem_append_right _ hw)])
  have hfilter : s.procs.filter (fun w => !w.alive) = [⟨n, p, t, c, false⟩] := by
    rw [hprocs, List.filter_append, hpre0, List.filter_cons]
    simp only [Bool.not_false, if_pos]
    rw [hpost0]
    rfl
  have hpop : popByName s.procs n = pre ++ post := by
    rw [hprocs]
    exact popByName_middle pre post ⟨n, p, t, c, false⟩ n rfl hpren
  have hlen2 : s.procs.length = (pre ++ post).length + 1 := by
    rw [hprocs]
    simp only [List.length_append, List.length_cons]
    omega
  have hguard : ¬ (0 < cfg.maxRuntimes ∧
      cfg.maxRuntimes ≤ (((pre ++ post).length : ℕ) : ℤ)) := by
    rw [hlen2] at hmax
    rcases hmax with h | h
    · omega
    · push_cast at h
      omega
  have hany : (pre ++ post).any (fun w => w.name == n) = false := by
    rw [List.any_eq_false]
    intro w hw
    simp only [beq_iff_eq]
    intro hcontra
    exact huniq (List.mem_map.mpr ⟨w, hw, hcontra⟩)
  have hsp := spawnLocked_named cfg
    { procs := pre ++ post, desired := s.desired
      portCursor := s.portCursor, clock := s.clock } n p hguard hany
  -- evaluate the single restart
  have hrestart : restartLocked cfg s ⟨n, p, t, c, false⟩ =
      .ok { procs := (pre ++ post) ++ [⟨n, p, s.clock, c + 1, true⟩]
            desired := s.desired
            portCursor := max s.portCursor (p + 1)
            clock := s.clock + 1 } := by
    show (match spawnLocked cfg
        { procs := popByName s.procs n, desired := s.desired
          portCursor := s.portCursor, clock := s.clock } (some n) (some p) with
      | Except.error e => (Except.error e : Except String PoolState)
      | Except.ok (newProc, s2) =>
        Except.ok { s2 with procs := updateRestarts s2.procs newProc.name (c + 1) }) =
      Except.ok { procs := (pre ++ post) ++ [⟨n, p, s.clock, c + 1, true⟩]
                  desired := s.desired
                  portCursor := max s.portCursor (p + 1)
                  clock := s.clock + 1 }
    rw [hpop, hsp]
    show Except.ok _ = _
    congr 1
    have hupd := updateRestarts_append_fresh (pre ++ post)
      ⟨n, p, s.clock, 0, true⟩ n (c + 1) huniq
    rw [show ((⟨n, p, s.clock, 0, true⟩ : RuntimeProcess).name == n) = true by simp,
      if_pos rfl] at hupd
    show { procs := updateRestarts ((pre ++ post) ++ [⟨n, p, s.clock, 0, true⟩]) n (c + 1)
           desired := s.desired, portCursor := max s.portCursor (p + 1)
           clock := s.clock + 1 } = (_ : PoolState)
    rw [hupd]
  refine ⟨{ procs := (pre ++ post) ++ [⟨n, p, s.clock, c + 1, true⟩]
            desired := s.desired, portCursor := max s.portCursor (p + 1)
            clock := s.clock + 1 }, ?_, ?_⟩
  · unfold poolHeartbeat
    rw [hens]
    show restartLoop cfg (List.filter (fun w => !w.alive) s.procs) s =
      Except.ok { procs := (pre ++ post) ++ [⟨n, p, s.clock, c + 1, true⟩]
                  desired := s.desired, portCursor := max s.portCursor (p + 1)
                  clock := s.clock + 1 }
    rw [hfilter]
    unfold restartLoop
    rw [hrestart]
    rfl
  · unfold findWorker
    show List.find? (fun w => w.name == n)
        ((pre ++ post) ++ [(⟨n, p, s.clock, c + 1, true⟩ : RuntimeProcess)]) =
      some ⟨n, p, s.clock, c + 1, true⟩
    exact findWorker_append_fresh (pre ++ post) ⟨n, p, s.clock, c + 1, true⟩ n huniq rfl

/-- Witness for C7: the S5 scenario — one dead worker `runtime-1` on
port 9600 with no prior restarts; the heartbeat revives it in place. -/
theorem pool_restart_in_place_witness :
    ∃ s1, poolHeartbeat ⟨0, 2, none, 9600⟩
        ⟨[⟨"runtime-1", 9600, 0, 0, false⟩], 1, 9601, 1⟩ = .ok s1
      ∧ findWorker s1 "runtime-1" = some ⟨"runtime-1", 9600, 1, 1, true⟩ :=
  pool_restart_in_place ⟨0, 2, none, 9600⟩
    ⟨[⟨"runtime-1", 9600, 0, 0, false⟩], 1, 9601, 1⟩ [] [] "runtime-1" 9600 0 0
    rfl (by simp) (by simp) (by decide) (Or.inr (by decide))
